import Mathlib

/-!
Verification of the Bitfinex USD funding bot (`funding_bot.py`).

The development shallowly embeds the bot's event classification, state
update and offer-decision logic.  Decoded JSON values (the inputs that
`json.loads` hands to `dispatch`) are modelled by `PyVal`; Python numbers
are modelled by rationals, and Python exceptions (KeyError, IndexError,
TypeError) by `Except Unit`.
-/

/-- A decoded JSON value as handled by the Python code: numbers (ints and
floats are merged into one rational-valued kind), strings, booleans,
`None`, arrays, and string-keyed objects. -/
inductive PyVal where
  | num : ℚ → PyVal
  | str : String → PyVal
  | bool : Bool → PyVal
  | null : PyVal
  | list : List PyVal → PyVal
  | dict : List (String × PyVal) → PyVal
deriving Repr

namespace PyVal

/-- Python `==` against a string literal: true only for an equal string. -/
def pyEqStr (v : PyVal) (s : String) : Bool :=
  match v with
  | .str t => t == s
  | _ => false

/-- Python `==` against a numeric literal: numbers compare by value and a
boolean coerces to 0/1 (`True == 1` holds in Python); every other kind
compares unequal. -/
def pyEqNum (v : PyVal) (q : ℚ) : Bool :=
  match v with
  | .num a => a == q
  | .bool b => (if b then (1 : ℚ) else 0) == q
  | _ => false

/-- Python numeric coercion used by arithmetic and ordered comparison:
numbers and booleans are numeric, anything else raises TypeError. -/
def asNum : PyVal → Except Unit ℚ
  | .num q => pure q
  | .bool b => pure (if b then (1 : ℚ) else 0)
  | _ => Except.error ()

/-- Python `v >= q` for a numeric literal `q`: TypeError unless `v` is
numeric. -/
def pyGe (v : PyVal) (q : ℚ) : Except Unit Bool := do
  let a ← v.asNum
  pure (decide (q ≤ a))

/-- Python subscription `v[i]` with a non-negative integer literal:
IndexError past the end of a list or string, TypeError (or KeyError for a
string-keyed object) for every other kind. -/
def index (v : PyVal) (i : ℕ) : Except Unit PyVal :=
  match v with
  | .list l =>
      match l.get? i with
      | some x => pure x
      | none => Except.error ()
  | .str s =>
      match s.toList.get? i with
      | some c => pure (.str (String.mk [c]))
      | none => Except.error ()
  | _ => Except.error ()

/-- Python subscription `v[key]` with a string literal key: KeyError when
the object lacks the key, TypeError for non-objects. -/
def getItemStr (v : PyVal) (key : String) : Except Unit PyVal :=
  match v with
  | .dict d =>
      match d.find? (fun p => p.1 == key) with
      | some p => pure p.2
      | none => Except.error ()
  | _ => Except.error ()

/-- Python `key in v` for a string literal: key membership for objects,
element equality for lists, substring test for strings, TypeError
otherwise. -/
def pyContains (v : PyVal) (key : String) : Except Unit Bool :=
  match v with
  | .dict d => pure (d.any (fun p => p.1 == key))
  | .list l => pure (l.any (fun x => x.pyEqStr key))
  | .str s => pure (1 < (s.splitOn key).length)
  | _ => Except.error ()

/-- Python iteration `for x in v`: the elements of a list, the characters
of a string, the keys of an object; TypeError otherwise. -/
def pyIterate : PyVal → Except Unit (List PyVal)
  | .list l => pure l
  | .str s => pure (s.toList.map (fun c => PyVal.str (String.mk [c])))
  | .dict d => pure (d.map (fun p => PyVal.str p.1))
  | _ => Except.error ()

/-- A hashable Python value in canonical form, usable as a dict key.
`True` hashes like `1` and `False` like `0`, so booleans canonicalise to
numbers; lists and dicts are unhashable. -/
inductive HKey where
  | num : ℚ → HKey
  | str : String → HKey
  | null : HKey
deriving Repr, DecidableEq

/-- Canonical dict-key form of a value: `none` means unhashable (using the
value as a dict key raises TypeError). -/
def hashKey : PyVal → Option HKey
  | .num q => some (.num q)
  | .str s => some (.str s)
  | .bool b => some (.num (if b then 1 else 0))
  | .null => some .null
  | _ => none

end PyVal

open PyVal

/-! ## Classifier predicates (funding_bot.py lines 32-106)

`dispatch` classifies each decoded message by testing these predicates in
order; each predicate mirrors one `is_*` function of the source, with the
short-circuit behaviour of Python `and` (a later conjunct is evaluated,
and can raise, only when the earlier ones held). -/

/-- `is_dict` (line 32). -/
def is_dict (m : PyVal) : Bool :=
  match m with
  | .dict _ => true
  | _ => false

/-- `is_list` (line 36). -/
def is_list (m : PyVal) : Bool :=
  match m with
  | .list _ => true
  | _ => false

/-- `get_event` (line 40): asserts the message is a keyed record, then
reads its "event" field — a KeyError when the field is absent. -/
def get_event (m : PyVal) : Except Unit PyVal :=
  if is_dict m then m.getItemStr "event" else Except.error ()

/-- `get_type` (line 45): asserts the message is a sequence, then reads
its second element — an IndexError when it is shorter. -/
def get_type (m : PyVal) : Except Unit PyVal :=
  if is_list m then m.index 1 else Except.error ()

/-- `is_connected` (line 50): keyed record with event "info" carrying a
nested platform-status field equal to 1. -/
def is_connected (m : PyVal) : Except Unit Bool :=
  if is_dict m then do
    let e ← get_event m
    if e.pyEqStr "info" then do
      let hasPlatform ← m.pyContains "platform"
      if hasPlatform then do
        let platform ← m.getItemStr "platform"
        let hasStatus ← platform.pyContains "status"
        if hasStatus then do
          let s ← platform.getItemStr "status"
          pure (s.pyEqNum 1)
        else pure false
      else pure false
    else pure false
  else pure false

/-- `is_authenticated` (line 58): keyed record with event "auth" and
status field "OK" (reading the status field can raise KeyError). -/
def is_authenticated (m : PyVal) : Except Unit Bool :=
  if is_dict m then do
    let e ← get_event m
    if e.pyEqStr "auth" then do
      let s ← m.getItemStr "status"
      pure (s.pyEqStr "OK")
    else pure false
  else pure false

/-- `is_error` (line 64): keyed record with event "error". -/
def is_error (m : PyVal) : Except Unit Bool :=
  if is_dict m then do
    let e ← get_event m
    pure (e.pyEqStr "error")
  else pure false

/-- `is_subscribed` (line 69): keyed record with event "subscribed". -/
def is_subscribed (m : PyVal) : Except Unit Bool :=
  if is_dict m then do
    let e ← get_event m
    pure (e.pyEqStr "subscribed")
  else pure false

/-- `is_heart_beat` (line 74): sequence whose second element is "hb". -/
def is_heart_beat (m : PyVal) : Except Unit Bool :=
  if is_list m then do
    let t ← get_type m
    pure (t.pyEqStr "hb")
  else pure false

/-- `is_wallet_update` (line 79): sequence whose second element is "wu".
Note the source checks no channel id here. -/
def is_wallet_update (m : PyVal) : Except Unit Bool :=
  if is_list m then do
    let t ← get_type m
    pure (t.pyEqStr "wu")
  else pure false

/-- `is_public_funding_trade_executed` (line 84): sequence with non-zero
first element and second element "fte". Defined by the source but never
consulted by `dispatch`. -/
def is_public_funding_trade_executed (m : PyVal) : Except Unit Bool :=
  if is_list m then do
    let c ← m.index 0
    if !c.pyEqNum 0 then do
      let t ← get_type m
      pure (t.pyEqStr "fte")
    else pure false
  else pure false

/-- `is_funding_offer_snapshot` (line 90): sequence with first element 0
and second element "fos". -/
def is_funding_offer_snapshot (m : PyVal) : Except Unit Bool :=
  if is_list m then do
    let c ← m.index 0
    if c.pyEqNum 0 then do
      let t ← m.index 1
      pure (t.pyEqStr "fos")
    else pure false
  else pure false

/-- `is_funding_offer_update` (line 96): sequence with first element 0 and
second element one of "fon", "fou", "foc". -/
def is_funding_offer_update (m : PyVal) : Except Unit Bool :=
  if is_list m then do
    let c ← m.index 0
    if c.pyEqNum 0 then do
      let t ← m.index 1
      pure (t.pyEqStr "fon" || t.pyEqStr "fou" || t.pyEqStr "foc")
    else pure false
  else pure false

/-- `is_public_funding_ticker` (line 102): sequence with non-zero first
element whose second element is itself a sequence whose own first element
is not a sequence. -/
def is_public_funding_ticker (m : PyVal) : Except Unit Bool :=
  if is_list m then do
    let c ← m.index 0
    if !c.pyEqNum 0 then do
      let t ← m.index 1
      if is_list t then do
        let h ← t.index 0
        pure (!is_list h)
      else pure false
    else pure false
  else pure false

/-! ## Configuration constants (funding_bot.py lines 21-27) -/

/-- `max_offer_pending_time = 120.0` (seconds). -/
def max_offer_pending_time : ℚ := 120

/-- `min_offer_amount = 50.0` (USD). -/
def min_offer_amount : ℚ := 50

/-! ## Offer ledger (funding_bot.py lines 25, 172-184)

`active_offers` is a Python dict keyed by the reported offer id.  It is
modelled as an insertion-ordered association list over canonical hashable
keys, exactly Python's dict semantics: assignment to a present key
replaces the value in place, assignment to an absent key appends, and
deletion removes the entry. -/

/-- One ledger entry: the `offer` dict built by `update_offer`, with keys
"time" (record index 3), "amount" (index 4) and "rate" (index 14). -/
structure Offer where
  time : PyVal
  amount : PyVal
  rate : PyVal
deriving Repr

/-- The `active_offers` dict: insertion-ordered id-to-offer entries. -/
abbrev Ledger : Type := List (PyVal.HKey × Offer)

/-- Lookup of an id in the ledger (`active_offers[id]` / `id in ...`). -/
def ledgerLookup (l : Ledger) (k : PyVal.HKey) : Option Offer :=
  (List.find? (fun p => p.1 = k) l).map (fun p => p.2)

/-- Deletion of an id (`del active_offers[id]`, a no-op when absent as
update_offer guards with `id in active_offers`). -/
def ledgerErase (l : Ledger) (k : PyVal.HKey) : Ledger :=
  List.filter (fun p => ¬ p.1 = k) l

/-- Assignment `active_offers[id] = offer`: replace in place when the key
is present, append otherwise. -/
def ledgerInsert (l : Ledger) (k : PyVal.HKey) (v : Offer) : Ledger :=
  if List.any l (fun p => p.1 = k) then
    List.map (fun p => if p.1 = k then (k, v) else p) l
  else l ++ [(k, v)]

/-- `update_offer` (lines 172-184): reads the positional record at indices
0 (id), 3 (time), 4 (amount), 14 (rate) and 10 (status), in source line
order; an unhashable id raises TypeError (at `id in active_offers` or at
the assignment, in either branch); a non-ACTIVE status removes the id,
an ACTIVE one inserts or overwrites the entry. -/
def update_offer (message : PyVal) (led : Ledger) : Except Unit Ledger := do
  let id ← message.index 0
  let time ← message.index 3
  let amount ← message.index 4
  let rate ← message.index 14
  let status ← message.index 10
  match id.hashKey with
  | none => Except.error ()
  | some k =>
      if !status.pyEqStr "ACTIVE" then pure (ledgerErase led k)
      else pure (ledgerInsert led k ⟨time, amount, rate⟩)

/-- The snapshot loop of `dispatch` (lines 257-258): `update_offer` once
per record, left to right; an exception aborts the remainder. -/
def applySnapshotList (led : Ledger) : List PyVal → Except Unit Ledger
  | [] => pure led
  | r :: rs => do
      let led' ← update_offer r led
      applySnapshotList led' rs

/-! ## Session state (funding_bot.py lines 24-27) -/

/-- The mutable module state: the offer ledger plus the market state
(`funding_available_usd`, `last_bid_rate`, `last_bid_period`).  The three
market fields hold whatever decoded value the update stored, as in the
source. -/
structure BotState where
  active_offers : Ledger
  funding_available_usd : PyVal
  last_bid_rate : PyVal
  last_bid_period : PyVal

/-- The initial module state (lines 24-27): empty ledger, zero balance,
zero rate, 30-day period. -/
def initialState : BotState :=
  ⟨[], .num 0, .num 0, .num 30⟩

/-! ## Decision engine (funding_bot.py lines 208-230) -/

/-- An outbound offer command produced by the decision engine:
`cancel_offer` sends `[0,"foc",null,{id}]` (line 167) and `submit_offer`
sends `[0,"fon",null,{LIMIT,fUSD,amount,rate,period}]` (line 155). -/
inductive Cmd where
  | cancel : PyVal.HKey → Cmd
  | submit : ℚ → PyVal → PyVal → Cmd
deriving Repr

/-- Does this command cancel offer `k`? -/
def isCancelFor (k : PyVal.HKey) : Cmd → Bool
  | .cancel i => i = k
  | .submit _ _ _ => false

/-- Is this a submit command? -/
def isSubmit : Cmd → Bool
  | .submit _ _ _ => true
  | .cancel _ => false

/-- The cancellation pass of `make_offer_decision` (lines 216-222): for
every ledger entry in order, compute `age = (now - time) * 1e-3` seconds
(a TypeError when the stored time is not numeric) and emit a cancel
command when the age strictly exceeds `max_offer_pending_time`. -/
def cancelPass (now : ℚ) : Ledger → Except Unit (List Cmd)
  | [] => pure []
  | (id, off) :: rest => do
      let t ← off.time.asNum
      let rest' ← cancelPass now rest
      pure ((if (now - t) * (1 / 1000) > max_offer_pending_time
             then [Cmd.cancel id] else []) ++ rest')

/-- `make_offer_decision` (lines 208-230) given the wall-clock time `now`
in milliseconds: the cancellation pass over the whole ledger, then one
submit of `min_offer_amount` at `last_bid_rate` for `last_bid_period`
when `funding_available_usd >= min_offer_amount`.  The function only
reads the module state, so it is returned unchanged alongside the
commands. -/
def make_offer_decision (now : ℚ) (st : BotState) :
    Except Unit (BotState × List Cmd) := do
  let cancels ← cancelPass now st.active_offers
  let enough ← st.funding_available_usd.pyGe min_offer_amount
  pure (st, cancels ++
    (if enough
     then [Cmd.submit min_offer_amount st.last_bid_rate st.last_bid_period]
     else []))

/-! ## Event classification and dispatch (funding_bot.py lines 233-262) -/

/-- The event variants distinguished by `dispatch`'s predicate chain.  A
public funding trade is never tested by `dispatch` (the source defines
`is_public_funding_trade_executed` but does not call it), so such a
message falls through to `unrecognized`. -/
inductive Event where
  | error
  | connected
  | authenticated
  | subscribed
  | heartBeat
  | walletUpdate
  | fundingOfferUpdate
  | fundingOfferSnapshot
  | publicFundingTicker
  | unrecognized
deriving Repr, DecidableEq

/-- The classifier: `dispatch`'s if/elif chain (lines 234-260), testing
the predicates in source order; an exception in any predicate aborts
classification, and a message matching none of them is `unrecognized`
(the final fall-through of the chain). -/
def classify (m : PyVal) : Except Unit Event := do
  if ← is_error m then pure .error
  else if ← is_connected m then pure .connected
  else if ← is_authenticated m then pure .authenticated
  else if ← is_subscribed m then pure .subscribed
  else if ← is_heart_beat m then pure .heartBeat
  else if ← is_wallet_update m then pure .walletUpdate
  else if ← is_funding_offer_update m then pure .fundingOfferUpdate
  else if ← is_funding_offer_snapshot m then pure .fundingOfferSnapshot
  else if ← is_public_funding_ticker m then pure .publicFundingTicker
  else pure .unrecognized

/-- `dispatch` (lines 233-262) at wall-clock time `now`: classify the
message, update the state, and run the decision engine on the private
heartbeat and the public ticker.  The `connected` branch performs the
login/subscribe handshake (auth and subscribe requests, no offer
commands; the login argv check is modelled separately by
`startupTrace`).  The `subscribed` branch reads the "channel" and
"symbol" fields for its log line, which can raise KeyError as in the
source. -/
def dispatch (now : ℚ) (st : BotState) (m : PyVal) :
    Except Unit (BotState × List Cmd) := do
  match ← classify m with
  | .error => pure (st, [])
  | .connected => pure (st, [])
  | .authenticated => pure (st, [])
  | .subscribed => do
      let _ ← m.getItemStr "channel"
      let _ ← m.getItemStr "symbol"
      pure (st, [])
  | .heartBeat => do
      let c ← m.index 0
      if !c.pyEqNum 0 then pure (st, [])
      else make_offer_decision now st
  | .walletUpdate => do
      let w ← m.index 2
      let a ← w.index 0
      if a.pyEqStr "funding" then do
        let b ← w.index 1
        if b.pyEqStr "USD" then do
          let w' ← m.index 2
          let v ← w'.index 4
          pure ({ st with funding_available_usd := v }, [])
        else pure (st, [])
      else pure (st, [])
  | .fundingOfferUpdate => do
      let r ← m.index 2
      let led ← update_offer r st.active_offers
      pure ({ st with active_offers := led }, [])
  | .fundingOfferSnapshot => do
      let r ← m.index 2
      let items ← r.pyIterate
      let led ← applySnapshotList st.active_offers items
      pure ({ st with active_offers := led }, [])
  | .publicFundingTicker => do
      let p ← m.index 1
      let rate ← p.index 1
      let per ← p.index 2
      make_offer_decision now
        { st with last_bid_rate := rate, last_bid_period := per }
  | .unrecognized => pure (st, [])

/-! ## Process startup (funding_bot.py lines 127-131, 271-282)

`connect` (line 271) first attempts the websocket connection; the
command-line argument check sits inside `login` (lines 128-130), which
runs only when `dispatch` handles the first Connected event of an
established session (lines 236-237).  `startupTrace` records the
observable actions of a run whose first connection succeeds and whose
first handled message is the Connected event. -/

/-- One observable process-level action during startup. -/
inductive StartupAction where
  | connectAttempt
  | usageErrorExit
  | authRequestSent
deriving Repr, DecidableEq

/-- The argv check inside `login` (line 128): a usage error exactly when
`len(sys.argv) != 2`. -/
def usageErrorTriggered (argv : List String) : Bool :=
  argv.length ≠ 2

/-- Startup actions in order: the connection attempt of `connect`
(line 274) always comes first; handling the Connected event then runs
`login`, which either prints the usage line and exits (lines 129-130) or
sends the auth request (line 152). -/
def startupTrace (argv : List String) : List StartupAction :=
  [.connectAttempt] ++
    (if usageErrorTriggered argv then [.usageErrorExit]
     else [.authRequestSent])

/-! ## Proof-support definitions

Characterisations of the effect of the ledger operations, used to state
and prove the lookup lemmas below.  These are not part of the embedding
of the source; they are defined to express what `update_offer` and the
snapshot loop do to an individual key. -/

/-- The effect of one offer record on ledger key `k`: `none` when the
record does not concern `k` (different id, or a malformed record whose
application raises), `some none` when it deletes `k`, `some (some off)`
when it stores `off` at `k`. -/
def recEffect (rec : PyVal) (k : PyVal.HKey) : Option (Option Offer) :=
  match rec.index 0, rec.index 3, rec.index 4, rec.index 14, rec.index 10 with
  | .ok id, .ok t, .ok a, .ok rt, .ok sst =>
      match id.hashKey with
      | some k' =>
          if k' = k then
            some (if sst.pyEqStr "ACTIVE" then some ⟨t, a, rt⟩ else none)
          else none
      | none => none
  | _, _, _, _, _ => none

/-- The combined effect of a record sequence on key `k`: the effect of
the last record concerning `k`, if any. -/
def snapEffect (rs : List PyVal) (k : PyVal.HKey) : Option (Option Offer) :=
  match rs with
  | [] => none
  | r :: rest =>
      match snapEffect rest k with
      | some e => some e
      | none => recEffect r k

/-- Is this ledger entry stale at time `now` (ms), i.e. does the decision
engine's cancellation pass emit a cancel for it? -/
def staleAt (now : ℚ) (off : Offer) : Bool :=
  match off.time.asNum with
  | .ok t => if (now - t) * (1 / 1000) > max_offer_pending_time then true else false
  | .error _ => false

/-! ## Concrete fixtures used by the witness theorems -/

/-- Fixture: two offers, created at 0 ms and 2000 ms, no balance. -/
def c1State : BotState :=
  { active_offers := [(.num 1, ⟨.num 0, .num 10, .num 3⟩),
                      (.num 2, ⟨.num 2000, .num 10, .num 3⟩)],
    funding_available_usd := .num 0,
    last_bid_rate := .num 3,
    last_bid_period := .num 30 }

/-- Fixture: empty ledger, balance 100 USD. -/
def c2HighState : BotState :=
  { active_offers := [],
    funding_available_usd := .num 100,
    last_bid_rate := .num 3,
    last_bid_period := .num 30 }

/-- Fixture: empty ledger, balance 10 USD. -/
def c2LowState : BotState :=
  { active_offers := [],
    funding_available_usd := .num 10,
    last_bid_rate := .num 3,
    last_bid_period := .num 30 }

/-- Fixture: one offer created at 0 ms, no balance. -/
def c8State : BotState :=
  { active_offers := [(.num 7, ⟨.num 0, .num 10, .num 3⟩)],
    funding_available_usd := .num 0,
    last_bid_rate := .num 3,
    last_bid_period := .num 30 }

/-- Fixture: an ACTIVE positional offer record for id 1. -/
def c4Rec : PyVal :=
  .list [.num 1, .null, .null, .num 5, .num 10, .null, .null, .null, .null, .null,
         .str "ACTIVE", .null, .null, .null, .num 3]

/-- Fixture: an ACTIVE positional offer record for id 2. -/
def c5Rec : PyVal :=
  .list [.num 2, .null, .null, .num 8, .num 60, .null, .null, .null, .null, .null,
         .str "ACTIVE", .null, .null, .null, .num 4]

/-- Fixture: empty ledger, balance 100 USD, rate 3, period 30. -/
def c7State : BotState :=
  { active_offers := [],
    funding_available_usd := .num 100,
    last_bid_rate := .num 3,
    last_bid_period := .num 30 }

/-! ## Ledger lemmas -/

lemma ledgerLookup_nil (k : PyVal.HKey) : ledgerLookup [] k = none := rfl

lemma ledgerLookup_cons (p : PyVal.HKey × Offer) (l : Ledger) (k : PyVal.HKey) :
    ledgerLookup (p :: l) k = if p.1 = k then some p.2 else ledgerLookup l k := by
  simp only [ledgerLookup, List.find?]
  by_cases h : p.1 = k <;> simp [h]

lemma ledgerErase_cons (p : PyVal.HKey × Offer) (l : Ledger) (k : PyVal.HKey) :
    ledgerErase (p :: l) k = if p.1 = k then ledgerErase l k else p :: ledgerErase l k := by
  simp only [ledgerErase, List.filter]
  by_cases h : p.1 = k <;> simp [h]

lemma ledgerLookup_erase (l : Ledger) (k k' : PyVal.HKey) :
    ledgerLookup (ledgerErase l k) k' = if k' = k then none else ledgerLookup l k' := by
  induction l with
  | nil => by_cases h : k' = k <;> simp [ledgerErase, ledgerLookup_nil, h]
  | cons p l ih =>
      rw [ledgerErase_cons]
      by_cases hp : p.1 = k
      · rw [if_pos hp, ih, ledgerLookup_cons]
        by_cases hk : k' = k
        · simp [hk]
        · have hpk : ¬ p.1 = k' := by
            intro h
            exact hk (by rw [← h, hp])
          simp [hk, hpk]
      · rw [if_neg hp, ledgerLookup_cons, ledgerLookup_cons, ih]
        by_cases hpk : p.1 = k'
        · have hk : ¬ k' = k := by
            intro h
            exact hp (by rw [hpk, h])
          simp [hpk, hk]
        · simp [hpk]

lemma ledgerLookup_mapReplace_ne (l : Ledger) (k k' : PyVal.HKey) (v : Offer)
    (h : ¬ k' = k) :
    ledgerLookup (List.map (fun p => if p.1 = k then (k, v) else p) l) k' =
      ledgerLookup l k' := by
  induction l with
  | nil => rfl
  | cons p l ih =>
      rw [List.map_cons]
      by_cases hp : p.1 = k
      · rw [if_pos hp, ledgerLookup_cons, ledgerLookup_cons]
        have h1 : ¬ (k, v).1 = k' := fun hh => h (by rw [← hh])
        have h2 : ¬ p.1 = k' := by
          intro hh
          exact h (by rw [← hh, hp])
        simp [h1, h2, ih]
      · rw [if_neg hp, ledgerLookup_cons, ledgerLookup_cons, ih]

lemma ledgerLookup_mapReplace_self (l : Ledger) (k : PyVal.HKey) (v : Offer)
    (ha : List.any l (fun p => p.1 = k) = true) :
    ledgerLookup (List.map (fun p => if p.1 = k then (k, v) else p) l) k = some v := by
  induction l with
  | nil => simp at ha
  | cons q l ih =>
      rw [List.map_cons]
      by_cases hq : q.1 = k
      · rw [if_pos hq, ledgerLookup_cons]
        simp
      · rw [if_neg hq, ledgerLookup_cons, if_neg hq]
        apply ih
        rw [List.any_cons] at ha
        simpa [hq] using ha

lemma ledgerLookup_insert (l : Ledger) (k k' : PyVal.HKey) (v : Offer) :
    ledgerLookup (ledgerInsert l k v) k' = if k' = k then some v else ledgerLookup l k' := by
  by_cases ha : List.any l (fun p => p.1 = k)
  · rw [ledgerInsert, if_pos ha]
    by_cases hk : k' = k
    · subst hk
      rw [if_pos rfl]
      exact ledgerLookup_mapReplace_self l k' v ha
    · rw [if_neg hk]
      exact ledgerLookup_mapReplace_ne l k k' v hk
  · rw [ledgerInsert, if_neg ha]
    induction l with
    | nil =>
        rw [ledgerLookup_nil, List.nil_append, ledgerLookup_cons]
        by_cases hk : k' = k
        · simp [hk]
        · simp only [ledgerLookup_nil, if_neg hk]
          have : ¬ (k, v).1 = k' := fun hh => hk (by rw [← hh])
          simp [this]
    | cons q l ih =>
        rw [List.cons_append, ledgerLookup_cons, ledgerLookup_cons]
        have haq : ¬ List.any l (fun p => p.1 = k) := by
          intro hh
          exact ha (by simp [List.any_cons]; right; simpa using hh)
        by_cases hq : q.1 = k'
        · have hk : ¬ k' = k := by
            intro hh
            apply ha
            simp [List.any_cons]
            left
            rw [hq, hh]
          simp [hq, hk]
        · rw [if_neg hq, if_neg hq, ih haq]

lemma ledgerErase_of_lookup_none (l : Ledger) (k : PyVal.HKey) (h : ledgerLookup l k = none) :
    ledgerErase l k = l := by
  induction l with
  | nil => rfl
  | cons p l ih =>
      rw [ledgerLookup_cons] at h
      by_cases hp : p.1 = k
      · simp [hp] at h
      · rw [ledgerErase_cons, if_neg hp, ih (by simpa [hp] using h)]

/-! ## update_offer and snapshot lemmas -/

lemma update_offer_spec (rec : PyVal) (led led' : Ledger)
    (h : update_offer rec led = .ok led') :
    ∃ id t a rt sst k,
      rec.index 0 = .ok id ∧ rec.index 3 = .ok t ∧ rec.index 4 = .ok a ∧
      rec.index 14 = .ok rt ∧ rec.index 10 = .ok sst ∧ id.hashKey = some k ∧
      led' = (if sst.pyEqStr "ACTIVE" then ledgerInsert led k ⟨t, a, rt⟩
              else ledgerErase led k) := by
  simp only [update_offer, bind, Except.bind] at h
  cases h0 : rec.index 0 with
  | error e => simp [h0] at h
  | ok id =>
  simp only [h0] at h
  cases h3 : rec.index 3 with
  | error e => simp [h3] at h
  | ok t =>
  simp only [h3] at h
  cases h4 : rec.index 4 with
  | error e => simp [h4] at h
  | ok a =>
  simp only [h4] at h
  cases h14 : rec.index 14 with
  | error e => simp [h14] at h
  | ok rt =>
  simp only [h14] at h
  cases h10 : rec.index 10 with
  | error e => simp [h10] at h
  | ok sst =>
  simp only [h10] at h
  cases hk : id.hashKey with
  | none => simp [hk] at h
  | some k =>
  simp only [hk] at h
  refine ⟨id, t, a, rt, sst, k, rfl, rfl, rfl, rfl, rfl, hk, ?_⟩
  by_cases hs : sst.pyEqStr "ACTIVE"
  · simp only [hs, Bool.not_true, Bool.false_eq_true, if_false, if_true, pure, Except.pure,
      Except.ok.injEq] at h ⊢
    exact h.symm
  · simp only [Bool.not_eq_true] at hs
    simp only [hs, Bool.not_false, if_true, Bool.false_eq_true, if_false, pure, Except.pure,
      Except.ok.injEq] at h ⊢
    exact h.symm

lemma update_offer_ok_any (rec : PyVal) (led led' : Ledger)
    (h : update_offer rec led = .ok led') (led₂ : Ledger) :
    ∃ led₂', update_offer rec led₂ = .ok led₂' := by
  obtain ⟨id, t, a, rt, sst, k, h0, h3, h4, h14, h10, hk, -⟩ := update_offer_spec rec led led' h
  refine ⟨if sst.pyEqStr "ACTIVE" then ledgerInsert led₂ k ⟨t, a, rt⟩ else ledgerErase led₂ k, ?_⟩
  simp only [update_offer, bind, Except.bind, h0, h3, h4, h14, h10, hk]
  by_cases hs : sst.pyEqStr "ACTIVE" <;> simp [hs, pure, Except.pure]

lemma ledgerLookup_update_offer (rec : PyVal) (led led' : Ledger)
    (h : update_offer rec led = .ok led') (k : PyVal.HKey) :
    ledgerLookup led' k =
      (match recEffect rec k with
       | some e => e
       | none => ledgerLookup led k) := by
  obtain ⟨id, t, a, rt, sst, k', h0, h3, h4, h14, h10, hk, hled⟩ := update_offer_spec rec led led' h
  subst hled
  simp only [recEffect, h0, h3, h4, h14, h10, hk]
  by_cases hkk : k' = k
  · subst hkk
    by_cases hs : sst.pyEqStr "ACTIVE" <;>
      simp [hs, ledgerLookup_insert, ledgerLookup_erase]
  · have hkk2 : ¬ k = k' := fun hh => hkk (Eq.symm hh)
    by_cases hs : sst.pyEqStr "ACTIVE" <;>
      simp [hs, hkk, hkk2, ledgerLookup_insert, ledgerLookup_erase]

lemma applySnapshotList_ok_any (rs : List PyVal) (led led' : Ledger)
    (h : applySnapshotList led rs = .ok led') (led₂ : Ledger) :
    ∃ led₂', applySnapshotList led₂ rs = .ok led₂' := by
  induction rs generalizing led led' led₂ with
  | nil => exact ⟨led₂, rfl⟩
  | cons r rs ih =>
      simp only [applySnapshotList, bind, Except.bind] at h
      cases hm : update_offer r led with
      | error e => rw [hm] at h; exact absurd h (by simp)
      | ok m =>
          rw [hm] at h
          obtain ⟨m₂, hm₂⟩ := update_offer_ok_any r led m hm led₂
          obtain ⟨led₂', hled₂'⟩ := ih m led' h m₂
          exact ⟨led₂', by simp only [applySnapshotList, bind, Except.bind, hm₂, hled₂']⟩

lemma ledgerLookup_applySnapshotList (rs : List PyVal) (led led' : Ledger)
    (h : applySnapshotList led rs = .ok led') (k : PyVal.HKey) :
    ledgerLookup led' k =
      (match snapEffect rs k with
       | some e => e
       | none => ledgerLookup led k) := by
  induction rs generalizing led led' with
  | nil =>
      simp only [applySnapshotList, pure, Except.pure] at h
      cases h
      rfl
  | cons r rs ih =>
      simp only [applySnapshotList, bind, Except.bind] at h
      cases hm : update_offer r led with
      | error e => rw [hm] at h; exact absurd h (by simp)
      | ok m =>
          rw [hm] at h
          rw [ih m led' h, snapEffect]
          cases hse : snapEffect rs k with
          | some e => simp
          | none => simp [ledgerLookup_update_offer r led m hm k]

/-! ## Decision-engine lemmas -/

lemma make_offer_decision_spec (now : ℚ) (st : BotState) (r : BotState × List Cmd)
    (h : make_offer_decision now st = .ok r) :
    ∃ cancels enough,
      cancelPass now st.active_offers = .ok cancels ∧
      st.funding_available_usd.pyGe min_offer_amount = .ok enough ∧
      r = (st, cancels ++
        (if enough
         then [Cmd.submit min_offer_amount st.last_bid_rate st.last_bid_period]
         else [])) := by
  simp only [make_offer_decision, bind, Except.bind] at h
  cases hc : cancelPass now st.active_offers with
  | error e => simp [hc] at h
  | ok cancels =>
  simp only [hc] at h
  cases he : st.funding_available_usd.pyGe min_offer_amount with
  | error e => simp [he] at h
  | ok enough =>
  simp only [he, pure, Except.pure, Except.ok.injEq] at h
  exact ⟨cancels, enough, rfl, rfl, h.symm⟩

lemma cancelPass_spec (now : ℚ) (id : PyVal.HKey) (off : Offer) (rest : Ledger) :
    cancelPass now ((id, off) :: rest) =
      (off.time.asNum.bind fun t =>
        (cancelPass now rest).map fun cs =>
          (if (now - t) * (1 / 1000) > max_offer_pending_time
           then [Cmd.cancel id] else []) ++ cs) := by
  simp only [cancelPass, bind, Except.bind, Except.map]
  cases off.time.asNum with
  | error e => rfl
  | ok t =>
      cases cancelPass now rest with
      | error e => rfl
      | ok cs => rfl

lemma cancelPass_cons_ok (now : ℚ) (id : PyVal.HKey) (off : Offer) (rest : Ledger)
    (cs : List Cmd) (h : cancelPass now ((id, off) :: rest) = .ok cs) :
    ∃ t cs', off.time.asNum = .ok t ∧ cancelPass now rest = .ok cs' ∧
      cs = (if (now - t) * (1 / 1000) > max_offer_pending_time
            then [Cmd.cancel id] else []) ++ cs' := by
  rw [cancelPass_spec] at h
  cases ht : off.time.asNum with
  | error e => simp [ht, Except.bind] at h
  | ok t =>
  simp only [ht, Except.bind] at h
  cases hc : cancelPass now rest with
  | error e => simp [hc, Except.map] at h
  | ok cs' =>
  simp only [hc, Except.map, Except.ok.injEq] at h
  exact ⟨t, cs', rfl, rfl, h.symm⟩

lemma cancelPass_only_cancels (now : ℚ) (l : Ledger) (cs : List Cmd)
    (h : cancelPass now l = .ok cs) :
    ∀ c ∈ cs, isSubmit c = false := by
  induction l generalizing cs with
  | nil =>
      simp only [cancelPass, pure, Except.pure, Except.ok.injEq] at h
      subst h
      intro c hc
      simp at hc
  | cons p l ih =>
      obtain ⟨t, cs', ht, hc, hcs⟩ := cancelPass_cons_ok now p.1 p.2 l cs h
      subst hcs
      intro c hcmem
      rcases List.mem_append.mp hcmem with hmem | hmem
      · by_cases hst : (now - t) * (1 / 1000) > max_offer_pending_time
        · rw [if_pos hst] at hmem
          simp at hmem
          subst hmem
          rfl
        · rw [if_neg hst] at hmem
          simp at hmem
      · exact ih cs' hc c hmem

lemma cancelPass_countP (now : ℚ) (l : Ledger) (cs : List Cmd)
    (h : cancelPass now l = .ok cs) (k : PyVal.HKey) :
    List.countP (isCancelFor k) cs =
      List.countP (fun p => decide (p.1 = k) && staleAt now p.2) l := by
  induction l generalizing cs with
  | nil =>
      simp only [cancelPass, pure, Except.pure, Except.ok.injEq] at h
      subst h
      rfl
  | cons p l ih =>
      obtain ⟨t, cs', ht, hc, hcs⟩ := cancelPass_cons_ok now p.1 p.2 l cs h
      subst hcs
      rw [List.countP_append, List.countP_cons, ih cs' hc]
      have hstale : staleAt now p.2 =
          (if (now - t) * (1 / 1000) > max_offer_pending_time then true else false) := by
        simp [staleAt, ht]
      by_cases hst : (now - t) * (1 / 1000) > max_offer_pending_time
      · rw [if_pos hst] at hstale ⊢
        by_cases hk : p.1 = k
        · simp [isCancelFor, hk, hstale, Nat.add_comm]
        · have hk2 : ¬ k = p.1 := fun hh => hk (Eq.symm hh)
          simp [isCancelFor, hk, hk2, hstale]
      · rw [if_neg hst] at hstale ⊢
        simp [hstale]

lemma cancelPass_ok_other_time (now : ℚ) (l : Ledger) (cs : List Cmd)
    (h : cancelPass now l = .ok cs) (now₂ : ℚ) :
    ∃ cs₂, cancelPass now₂ l = .ok cs₂ := by
  induction l generalizing cs with
  | nil => exact ⟨[], rfl⟩
  | cons p l ih =>
      obtain ⟨t, cs', ht, hc, -⟩ := cancelPass_cons_ok now p.1 p.2 l cs h
      obtain ⟨cs₂, hcs₂⟩ := ih cs' hc
      refine ⟨(if (now₂ - t) * (1 / 1000) > max_offer_pending_time
               then [Cmd.cancel p.1] else []) ++ cs₂, ?_⟩
      rw [cancelPass_spec, ht]
      simp only [Except.bind, hcs₂, Except.map]

lemma cancelPass_mem_of_stale (now : ℚ) (l : Ledger) (cs : List Cmd)
    (h : cancelPass now l = .ok cs) (k : PyVal.HKey) (off : Offer)
    (hmem : ledgerLookup l k = some off) (hst : staleAt now off = true) :
    Cmd.cancel k ∈ cs := by
  induction l generalizing cs with
  | nil => simp [ledgerLookup_nil] at hmem
  | cons p l ih =>
      obtain ⟨t, cs', ht, hc, hcs⟩ := cancelPass_cons_ok now p.1 p.2 l cs h
      subst hcs
      rw [ledgerLookup_cons] at hmem
      by_cases hk : p.1 = k
      · rw [if_pos hk, Option.some.injEq] at hmem
        subst hmem
        rw [staleAt, ht] at hst
        simp only [gt_iff_lt] at hst
        rw [List.mem_append]
        left
        by_cases hc2 : (now - t) * (1 / 1000) > max_offer_pending_time
        · rw [if_pos hc2]
          simp [hk]
        · rw [if_neg hc2] at hst ⊢
          simp at hst
      · rw [if_neg hk] at hmem
        exact List.mem_append.mpr (Or.inr (ih cs' hc hmem))

lemma countP_key_nodup (l : Ledger) (k : PyVal.HKey) (off : Offer) (q : Offer → Bool)
    (hnd : (List.map Prod.fst l).Nodup) (hmem : ledgerLookup l k = some off) :
    List.countP (fun p => decide (p.1 = k) && q p.2) l = if q off then 1 else 0 := by
  induction l with
  | nil => simp [ledgerLookup_nil] at hmem
  | cons p l ih =>
      rw [List.map_cons, List.nodup_cons] at hnd
      rw [ledgerLookup_cons] at hmem
      rw [List.countP_cons]
      by_cases hk : p.1 = k
      · rw [if_pos hk, Option.some.injEq] at hmem
        subst hmem
        have hz : List.countP (fun p => decide (p.1 = k) && q p.2) l = 0 := by
          rw [List.countP_eq_zero]
          intro a ha
          have : a.1 ≠ p.1 := by
            intro hh
            exact hnd.1 (hh ▸ List.mem_map_of_mem Prod.fst ha)
          simp [hk ▸ this]
        rw [hz]
        by_cases hq : q p.2 <;> simp [hk, hq]
      · rw [if_neg hk] at hmem
        rw [ih hnd.2 hmem]
        simp [hk]

/-! ## Claim theorems -/

/-- C1: on every run of the decision engine at time `now` (ms), a ledger
entry receives exactly one cancel command iff its age in seconds strictly
exceeds the maximum pending time of 120 seconds, and no cancel command
otherwise. -/
theorem cancel_iff_age_exceeds_max (now : ℚ) (st : BotState)
    (r : BotState × List Cmd)
    (hnd : (List.map Prod.fst st.active_offers).Nodup)
    (h : make_offer_decision now st = .ok r)
    (id : PyVal.HKey) (off : Offer) (t : ℚ)
    (hmem : ledgerLookup st.active_offers id = some off)
    (ht : off.time.asNum = .ok t) :
    List.countP (isCancelFor id) r.2 =
      if (now - t) * (1 / 1000) > max_offer_pending_time then 1 else 0 := by
  obtain ⟨cancels, enough, hc, he, hr⟩ := make_offer_decision_spec now st r h
  subst hr
  simp only [List.countP_append]
  have h1 := cancelPass_countP now st.active_offers cancels hc id
  have h2 := countP_key_nodup st.active_offers id off (staleAt now) hnd hmem
  have hsub : List.countP (isCancelFor id)
      (if enough
       then [Cmd.submit min_offer_amount st.last_bid_rate st.last_bid_period]
       else []) = 0 := by
    cases enough <;> simp [isCancelFor]
  rw [h1, h2, hsub, Nat.add_zero]
  rw [staleAt, ht]
  by_cases hst : (now - t) * (1 / 1000) > max_offer_pending_time <;> simp [hst]

theorem cancel_iff_age_exceeds_max_witness :
    make_offer_decision 121000 c1State = .ok (c1State, [Cmd.cancel (.num 1)]) ∧
    List.countP (isCancelFor (.num 1)) [Cmd.cancel (PyVal.HKey.num 1)] = 1 ∧
    List.countP (isCancelFor (.num 2)) [Cmd.cancel (PyVal.HKey.num 1)] = 0 := by
  have h : make_offer_decision 121000 c1State = .ok (c1State, [Cmd.cancel (.num 1)]) := by
    norm_num [c1State, make_offer_decision, cancelPass, PyVal.asNum, PyVal.pyGe,
      max_offer_pending_time, min_offer_amount, bind, Except.bind, pure, Except.pure]
  have hnd : (List.map Prod.fst c1State.active_offers).Nodup := by
    simp [c1State]
  refine ⟨h, ?_, ?_⟩
  · have h1 := cancel_iff_age_exceeds_max 121000 c1State _ hnd h
      (.num 1) ⟨.num 0, .num 10, .num 3⟩ 0 rfl rfl
    norm_num [max_offer_pending_time] at h1
    exact h1
  · have h2 := cancel_iff_age_exceeds_max 121000 c1State _ hnd h
      (.num 2) ⟨.num 2000, .num 10, .num 3⟩ 2000 rfl rfl
    norm_num [max_offer_pending_time] at h2
    simp [List.countP_cons, h2]

/-- C2: after the cancellation pass, exactly one submit command — of
exactly `min_offer_amount` at `last_bid_rate` for `last_bid_period` — is
emitted iff the available balance is at least `min_offer_amount`; all
cancel commands precede it. -/
theorem submit_iff_balance_sufficient (now : ℚ) (st : BotState)
    (r : BotState × List Cmd) (q : ℚ)
    (h : make_offer_decision now st = .ok r)
    (hq : st.funding_available_usd = PyVal.num q) :
    ∃ cs, (∀ c ∈ cs, isSubmit c = false) ∧
      r.2 = cs ++
        (if min_offer_amount ≤ q
         then [Cmd.submit min_offer_amount st.last_bid_rate st.last_bid_period]
         else []) := by
  obtain ⟨cancels, enough, hc, he, hr⟩ := make_offer_decision_spec now st r h
  subst hr
  refine ⟨cancels, cancelPass_only_cancels now _ cancels hc, ?_⟩
  rw [hq] at he
  simp only [PyVal.pyGe, PyVal.asNum, bind, Except.bind, pure, Except.pure,
    Except.ok.injEq] at he
  subst he
  by_cases hge : min_offer_amount ≤ q <;> simp [hge]

theorem submit_iff_balance_sufficient_witness :
    make_offer_decision 0 c2HighState = .ok (c2HighState, [Cmd.submit 50 (.num 3) (.num 30)]) ∧
    (∃ cs, (∀ c ∈ cs, isSubmit c = false) ∧
      (c2HighState, [Cmd.submit (50 : ℚ) (PyVal.num 3) (PyVal.num 30)]).2 = cs ++
        (if min_offer_amount ≤ (100 : ℚ)
         then [Cmd.submit min_offer_amount c2HighState.last_bid_rate c2HighState.last_bid_period]
         else [])) ∧
    make_offer_decision 0 c2LowState = .ok (c2LowState, []) ∧
    (∃ cs, (∀ c ∈ cs, isSubmit c = false) ∧
      (c2LowState, ([] : List Cmd)).2 = cs ++
        (if min_offer_amount ≤ (10 : ℚ)
         then [Cmd.submit min_offer_amount c2LowState.last_bid_rate c2LowState.last_bid_period]
         else [])) := by
  have hHigh : make_offer_decision 0 c2HighState =
      .ok (c2HighState, [Cmd.submit 50 (.num 3) (.num 30)]) := by
    norm_num [c2HighState, make_offer_decision, cancelPass, PyVal.pyGe, PyVal.asNum,
      min_offer_amount, bind, Except.bind, pure, Except.pure]
  have hLow : make_offer_decision 0 c2LowState = .ok (c2LowState, []) := by
    norm_num [c2LowState, make_offer_decision, cancelPass, PyVal.pyGe, PyVal.asNum,
      min_offer_amount, bind, Except.bind, pure, Except.pure]
  exact ⟨hHigh, submit_iff_balance_sufficient 0 c2HighState _ 100 hHigh rfl,
         hLow, submit_iff_balance_sufficient 0 c2LowState _ 10 hLow rfl⟩

/-- C8: the decision engine never mutates the ledger or market state (the
state it returns is the state it was given), and a stale offer keeps its
ledger entry, so it receives a cancel command again on any later run. -/
theorem decision_engine_preserves_state (now nowLater : ℚ) (st : BotState)
    (r : BotState × List Cmd)
    (h : make_offer_decision now st = .ok r) (hmono : now ≤ nowLater) :
    r.1 = st ∧
    ∀ (id : PyVal.HKey) (off : Offer) (t : ℚ),
      ledgerLookup st.active_offers id = some off →
      off.time.asNum = .ok t →
      (now - t) * (1 / 1000) > max_offer_pending_time →
      Cmd.cancel id ∈ r.2 ∧
      ∃ r', make_offer_decision nowLater st = .ok r' ∧ r'.1 = st ∧
        Cmd.cancel id ∈ r'.2 := by
  obtain ⟨cancels, enough, hc, he, hr⟩ := make_offer_decision_spec now st r h
  subst hr
  refine ⟨rfl, fun id off t hmem ht hstale => ?_⟩
  have hstB : staleAt now off = true := by
    simp only [staleAt, ht]
    rw [if_pos hstale]
  refine ⟨List.mem_append.mpr (Or.inl
    (cancelPass_mem_of_stale now _ cancels hc id off hmem hstB)), ?_⟩
  obtain ⟨cs₂, hcs₂⟩ := cancelPass_ok_other_time now _ cancels hc nowLater
  have hstale₂ : (nowLater - t) * (1 / 1000) > max_offer_pending_time := by
    refine lt_of_lt_of_le hstale ?_
    have h1 : now - t ≤ nowLater - t := sub_le_sub_right hmono t
    have h2 : (0 : ℚ) ≤ 1 / 1000 := by norm_num
    exact mul_le_mul_of_nonneg_right h1 h2
  have hstB₂ : staleAt nowLater off = true := by
    simp only [staleAt, ht]
    rw [if_pos hstale₂]
  refine ⟨(st, cs₂ ++
      (if enough
       then [Cmd.submit min_offer_amount st.last_bid_rate st.last_bid_period]
       else [])), ?_, rfl, ?_⟩
  · simp only [make_offer_decision, bind, Except.bind, hcs₂, he, pure, Except.pure]
  · exact List.mem_append.mpr (Or.inl
      (cancelPass_mem_of_stale nowLater _ cs₂ hcs₂ id off hmem hstB₂))

theorem decision_engine_preserves_state_witness :
    make_offer_decision 121000 c8State = .ok (c8State, [Cmd.cancel (.num 7)]) ∧
    (121000 - 0 : ℚ) * (1 / 1000) > max_offer_pending_time ∧
    (c8State, [Cmd.cancel (PyVal.HKey.num 7)]).1 = c8State ∧
    Cmd.cancel (.num 7) ∈ [Cmd.cancel (PyVal.HKey.num 7)] ∧
    (∃ r', make_offer_decision 122000 c8State = .ok r' ∧ r'.1 = c8State ∧
      Cmd.cancel (.num 7) ∈ r'.2) := by
  have h : make_offer_decision 121000 c8State = .ok (c8State, [Cmd.cancel (.num 7)]) := by
    norm_num [c8State, make_offer_decision, cancelPass, PyVal.pyGe, PyVal.asNum,
      max_offer_pending_time, min_offer_amount, bind, Except.bind, pure, Except.pure]
  have hst : (121000 - 0 : ℚ) * (1 / 1000) > max_offer_pending_time := by
    norm_num [max_offer_pending_time]
  have hmain := decision_engine_preserves_state 121000 122000 c8State _ h (by norm_num)
  have hstale := hmain.2 (.num 7) ⟨.num 0, .num 10, .num 3⟩ 0 rfl rfl hst
  exact ⟨h, hst, hmain.1, hstale.1, hstale.2⟩

lemma snapEffect_none_of_no_key (rs : List PyVal) (k : PyVal.HKey)
    (h : ∀ r ∈ rs, ∀ i, r.index 0 = .ok i → i.hashKey ≠ some k) :
    snapEffect rs k = none := by
  induction rs with
  | nil => rfl
  | cons r rest ih =>
      rw [snapEffect, ih (fun r' hr' => h r' (List.mem_cons_of_mem r hr'))]
      rw [recEffect]
      cases h0 : r.index 0 with
      | error e => rfl
      | ok i =>
          cases h3 : r.index 3 with
          | error e => rfl
          | ok t =>
          cases h4 : r.index 4 with
          | error e => rfl
          | ok a =>
          cases h14 : r.index 14 with
          | error e => rfl
          | ok rt =>
          cases h10 : r.index 10 with
          | error e => rfl
          | ok sst =>
          cases hk : i.hashKey with
          | none => simp [hk]
          | some k' =>
              have hne : k' ≠ k := by
                intro hkk
                exact h r (List.mem_cons_self r rest) i h0 (hkk ▸ hk)
              simp [hk, hne]

/-- C4: `update_offer` reads id, time, amount, status and rate at
positional indices 0, 3, 4, 10 and 14; a non-ACTIVE status removes the id
from the ledger (a no-op when absent) and an ACTIVE one inserts or
overwrites the entry; the snapshot loop applies this once per record and
never removes an entry whose id no snapshot record carries. -/
theorem update_offer_record_semantics (led : Ledger) (rec : PyVal) (led' : Ledger)
    (h : update_offer rec led = .ok led')
    (id t a rt sst : PyVal) (k : PyVal.HKey)
    (h0 : rec.index 0 = .ok id) (h3 : rec.index 3 = .ok t)
    (h4 : rec.index 4 = .ok a) (h10 : rec.index 10 = .ok sst)
    (h14 : rec.index 14 = .ok rt) (hk : id.hashKey = some k) :
    (sst.pyEqStr "ACTIVE" = false →
      led' = ledgerErase led k ∧ (ledgerLookup led k = none → led' = led)) ∧
    (sst.pyEqStr "ACTIVE" = true →
      led' = ledgerInsert led k ⟨t, a, rt⟩ ∧
      ledgerLookup led' k = some ⟨t, a, rt⟩) ∧
    (∀ led₂ rs led₃, applySnapshotList led₂ rs = .ok led₃ →
      ∀ k₂ : PyVal.HKey,
        (∀ r ∈ rs, ∀ i, r.index 0 = .ok i → i.hashKey ≠ some k₂) →
        ledgerLookup led₃ k₂ = ledgerLookup led₂ k₂) := by
  obtain ⟨id', t', a', rt', sst', k', g0, g3, g4, g14, g10, gk, hled⟩ :=
    update_offer_spec rec led led' h
  rw [h0, Except.ok.injEq] at g0
  rw [h3, Except.ok.injEq] at g3
  rw [h4, Except.ok.injEq] at g4
  rw [h14, Except.ok.injEq] at g14
  rw [h10, Except.ok.injEq] at g10
  subst g0 g3 g4 g14 g10
  rw [hk, Option.some.injEq] at gk
  subst gk
  refine ⟨?_, ?_, ?_⟩
  · intro hs
    rw [hs] at hled
    simp only [Bool.false_eq_true, if_false] at hled
    exact ⟨hled, fun hnone => hled.trans (ledgerErase_of_lookup_none led k hnone)⟩
  · intro hs
    rw [hs] at hled
    simp only [if_true] at hled
    subst hled
    exact ⟨rfl, by rw [ledgerLookup_insert]; simp⟩
  · intro led₂ rs led₃ hsnap k₂ hnokey
    rw [ledgerLookup_applySnapshotList rs led₂ led₃ hsnap k₂,
        snapEffect_none_of_no_key rs k₂ hnokey]

/-- C5: applying the same snapshot twice in succession yields a ledger
with the same entries as applying it once. -/
theorem snapshot_application_idempotent (led : Ledger) (rs : List PyVal) (led₁ : Ledger)
    (h : applySnapshotList led rs = .ok led₁) :
    ∃ led₂, applySnapshotList led₁ rs = .ok led₂ ∧
      ∀ k, ledgerLookup led₂ k = ledgerLookup led₁ k := by
  obtain ⟨led₂, h₂⟩ := applySnapshotList_ok_any rs led led₁ h led₁
  refine ⟨led₂, h₂, fun k => ?_⟩
  rw [ledgerLookup_applySnapshotList rs led₁ led₂ h₂ k]
  cases hse : snapEffect rs k with
  | some e =>
      simp only []
      rw [ledgerLookup_applySnapshotList rs led led₁ h k, hse]
  | none => simp only []

theorem update_offer_record_semantics_witness :
    update_offer c4Rec [] = .ok [(.num 1, ⟨.num 5, .num 10, .num 3⟩)] ∧
    (((PyVal.str "ACTIVE").pyEqStr "ACTIVE" = false →
      [(PyVal.HKey.num 1, (⟨.num 5, .num 10, .num 3⟩ : Offer))] = ledgerErase [] (.num 1) ∧
      (ledgerLookup [] (.num 1) = none →
        [(PyVal.HKey.num 1, (⟨.num 5, .num 10, .num 3⟩ : Offer))] = [])) ∧
    ((PyVal.str "ACTIVE").pyEqStr "ACTIVE" = true →
      [(PyVal.HKey.num 1, (⟨.num 5, .num 10, .num 3⟩ : Offer))] =
        ledgerInsert [] (.num 1) ⟨.num 5, .num 10, .num 3⟩ ∧
      ledgerLookup [(PyVal.HKey.num 1, (⟨.num 5, .num 10, .num 3⟩ : Offer))] (.num 1) =
        some ⟨.num 5, .num 10, .num 3⟩) ∧
    (∀ led₂ rs led₃, applySnapshotList led₂ rs = .ok led₃ →
      ∀ k₂ : PyVal.HKey,
        (∀ r ∈ rs, ∀ i, r.index 0 = .ok i → i.hashKey ≠ some k₂) →
        ledgerLookup led₃ k₂ = ledgerLookup led₂ k₂)) := by
  have h : update_offer c4Rec [] = .ok [(.num 1, ⟨.num 5, .num 10, .num 3⟩)] := rfl
  exact ⟨h, update_offer_record_semantics [] c4Rec _ h (.num 1) (.num 5) (.num 10)
    (.num 3) (.str "ACTIVE") (.num 1) rfl rfl rfl rfl rfl rfl⟩

theorem snapshot_application_idempotent_witness :
    applySnapshotList [] [c5Rec] = .ok [(.num 2, ⟨.num 8, .num 60, .num 4⟩)] ∧
    (∃ led₂, applySnapshotList [(PyVal.HKey.num 2, (⟨.num 8, .num 60, .num 4⟩ : Offer))] [c5Rec] = .ok led₂ ∧
      ∀ k, ledgerLookup led₂ k =
        ledgerLookup [(PyVal.HKey.num 2, (⟨.num 8, .num 60, .num 4⟩ : Offer))] k) := by
  have h : applySnapshotList [] [c5Rec] = .ok [(.num 2, ⟨.num 8, .num 60, .num 4⟩)] := rfl
  exact ⟨h, snapshot_application_idempotent [] [c5Rec] _ h⟩

/-- C3 (counterexample): a keyed record without an "event" field makes the
classifier raise a KeyError instead of returning a variant. -/
theorem classifier_raises_on_eventless_record : classify (.dict []) = Except.error () := rfl

/-- C3 (amended): whenever classification does complete, it returns one
of the variants, and an input that falls through to Unrecognized leaves
the ledger and the market state unchanged and emits no commands. -/
theorem unrecognized_leaves_state_unchanged (now : ℚ) (st : BotState) (m : PyVal)
    (h : classify m = .ok Event.unrecognized) :
    dispatch now st m = .ok (st, []) := by
  simp only [dispatch, bind, Except.bind, h, pure, Except.pure]

theorem unrecognized_leaves_state_unchanged_witness :
    classify (.num 3) = .ok Event.unrecognized ∧
    dispatch 0 initialState (.num 3) = .ok (initialState, []) :=
  ⟨rfl, unrecognized_leaves_state_unchanged 0 initialState (.num 3) rfl⟩

/-- C6 (counterexample): a sequence with non-zero channel id 5 and second
element "wu" is treated as a wallet update and does mutate the market
state (the available balance changes from 0 to 77). -/
theorem wallet_update_ignores_channel_cex :
    is_wallet_update (.list [.num 5, .str "wu",
      .list [.str "funding", .str "USD", .null, .null, .num 77]]) = .ok true ∧
    dispatch 0 initialState (.list [.num 5, .str "wu",
      .list [.str "funding", .str "USD", .null, .null, .num 77]]) =
      .ok ({ initialState with funding_available_usd := .num 77 }, []) ∧
    ({ initialState with funding_available_usd := PyVal.num 77 }).funding_available_usd ≠
      initialState.funding_available_usd := by
  refine ⟨rfl, rfl, ?_⟩
  intro hh
  simp only [initialState, PyVal.num.injEq] at hh
  norm_num at hh

/-- C6 (amended): a sequence whose second element is "wu" is classified
as a wallet update regardless of its channel id, and with a
funding/USD payload the wallet-update handling overwrites the available
balance for any channel id. -/
theorem wallet_update_ignores_channel (a : PyVal) (rest : List PyVal)
    (st : BotState) (now : ℚ) (x3 x4 v : PyVal) :
    classify (.list (a :: .str "wu" :: rest)) = .ok .walletUpdate ∧
    dispatch now st
        (.list [a, .str "wu", .list [.str "funding", .str "USD", x3, x4, v]]) =
      .ok ({ st with funding_available_usd := v }, []) := by
  constructor
  · simp [classify, is_error, is_connected, is_authenticated, is_subscribed,
      is_heart_beat, is_wallet_update, is_dict, is_list, get_event, get_type,
      PyVal.index, PyVal.pyEqStr, bind, Except.bind, pure, Except.pure]
  · simp [dispatch, classify, is_error, is_connected, is_authenticated, is_subscribed,
      is_heart_beat, is_wallet_update, is_dict, is_list, get_event, get_type,
      PyVal.index, PyVal.pyEqStr, bind, Except.bind, pure, Except.pure]

lemma except_bind_ok {α β : Type} (x : Except Unit α) (f : α → Except Unit β) (b : β)
    (h : Except.bind x f = .ok b) : ∃ a, x = .ok a ∧ f a = .ok b := by
  cases x with
  | error e => simp [Except.bind] at h
  | ok a => exact ⟨a, rfl, h⟩

/-- C7: cancel and submit commands are emitted only while handling a
private heartbeat (channel id 0) or a public ticker; for a public
heartbeat (non-zero channel id) dispatch leaves the state unchanged and
emits nothing. -/
theorem commands_only_on_trigger_events (now : ℚ) (st : BotState) (m : PyVal)
    (st' : BotState) (cmds : List Cmd)
    (h : dispatch now st m = .ok (st', cmds)) :
    (cmds ≠ [] →
      (classify m = .ok .heartBeat ∧ ∃ c, m.index 0 = .ok c ∧ c.pyEqNum 0 = true) ∨
      classify m = .ok .publicFundingTicker) ∧
    (∀ c, classify m = .ok .heartBeat → m.index 0 = .ok c → c.pyEqNum 0 = false →
      st' = st ∧ cmds = []) := by
  simp only [dispatch] at h
  obtain ⟨ev, hcl, h⟩ := except_bind_ok _ _ _ h
  cases ev with
  | error =>
      simp only [pure, Except.pure, Except.ok.injEq, Prod.mk.injEq] at h
      refine ⟨fun hne => absurd h.2.symm hne, fun c hcl2 => ?_⟩
      rw [hcl] at hcl2
      simp at hcl2
  | connected =>
      simp only [pure, Except.pure, Except.ok.injEq, Prod.mk.injEq] at h
      refine ⟨fun hne => absurd h.2.symm hne, fun c hcl2 => ?_⟩
      rw [hcl] at hcl2
      simp at hcl2
  | authenticated =>
      simp only [pure, Except.pure, Except.ok.injEq, Prod.mk.injEq] at h
      refine ⟨fun hne => absurd h.2.symm hne, fun c hcl2 => ?_⟩
      rw [hcl] at hcl2
      simp at hcl2
  | subscribed =>
      obtain ⟨x1, hx1, h⟩ := except_bind_ok _ _ _ h
      obtain ⟨x2, hx2, h⟩ := except_bind_ok _ _ _ h
      simp only [pure, Except.pure, Except.ok.injEq, Prod.mk.injEq] at h
      refine ⟨fun hne => absurd h.2.symm hne, fun c hcl2 => ?_⟩
      rw [hcl] at hcl2
      simp at hcl2
  | heartBeat =>
      obtain ⟨c, hc0, h⟩ := except_bind_ok _ _ _ h
      by_cases hz : c.pyEqNum 0 = true
      · rw [if_neg (by simp [hz])] at h
        refine ⟨fun hne => Or.inl ⟨hcl, c, hc0, hz⟩, fun c' hcl2 hc0' hz' => ?_⟩
        rw [hc0, Except.ok.injEq] at hc0'
        subst hc0'
        rw [hz] at hz'
        exact absurd hz' (by simp)
      · simp only [Bool.not_eq_true] at hz
        rw [if_pos (by simp [hz])] at h
        simp only [pure, Except.pure, Except.ok.injEq, Prod.mk.injEq] at h
        exact ⟨fun hne => absurd h.2.symm hne, fun c' hcl2 hc0' hz' => ⟨h.1.symm, h.2.symm⟩⟩
  | walletUpdate =>
      obtain ⟨w, hw, h⟩ := except_bind_ok _ _ _ h
      obtain ⟨a, ha, h⟩ := except_bind_ok _ _ _ h
      have hempty : cmds = [] := by
        by_cases haf : a.pyEqStr "funding" = true
        · rw [if_pos haf] at h
          obtain ⟨b, hb, h⟩ := except_bind_ok _ _ _ h
          by_cases hbu : b.pyEqStr "USD" = true
          · rw [if_pos hbu] at h
            obtain ⟨w', hw', h⟩ := except_bind_ok _ _ _ h
            obtain ⟨v, hv, h⟩ := except_bind_ok _ _ _ h
            simp only [pure, Except.pure, Except.ok.injEq, Prod.mk.injEq] at h
            exact h.2.symm
          · rw [if_neg hbu] at h
            simp only [pure, Except.pure, Except.ok.injEq, Prod.mk.injEq] at h
            exact h.2.symm
        · rw [if_neg haf] at h
          simp only [pure, Except.pure, Except.ok.injEq, Prod.mk.injEq] at h
          exact h.2.symm
      refine ⟨fun hne => absurd hempty hne, fun c hcl2 => ?_⟩
      rw [hcl] at hcl2
      simp at hcl2
  | fundingOfferUpdate =>
      obtain ⟨x1, hx1, h⟩ := except_bind_ok _ _ _ h
      obtain ⟨x2, hx2, h⟩ := except_bind_ok _ _ _ h
      simp only [pure, Except.pure, Except.ok.injEq, Prod.mk.injEq] at h
      refine ⟨fun hne => absurd h.2.symm hne, fun c hcl2 => ?_⟩
      rw [hcl] at hcl2
      simp at hcl2
  | fundingOfferSnapshot =>
      obtain ⟨x1, hx1, h⟩ := except_bind_ok _ _ _ h
      obtain ⟨x2, hx2, h⟩ := except_bind_ok _ _ _ h
      obtain ⟨x3, hx3, h⟩ := except_bind_ok _ _ _ h
      simp only [pure, Except.pure, Except.ok.injEq, Prod.mk.injEq] at h
      refine ⟨fun hne => absurd h.2.symm hne, fun c hcl2 => ?_⟩
      rw [hcl] at hcl2
      simp at hcl2
  | publicFundingTicker =>
      refine ⟨fun hne => Or.inr hcl, fun c hcl2 => ?_⟩
      rw [hcl] at hcl2
      simp at hcl2
  | unrecognized =>
      simp only [pure, Except.pure, Except.ok.injEq, Prod.mk.injEq] at h
      refine ⟨fun hne => absurd h.2.symm hne, fun c hcl2 => ?_⟩
      rw [hcl] at hcl2
      simp at hcl2

theorem commands_only_on_trigger_events_witness :
    dispatch 0 c7State (.list [.num 0, .str "hb"]) =
      .ok (c7State, [Cmd.submit 50 (.num 3) (.num 30)]) ∧
    ((classify (.list [.num 0, .str "hb"]) = .ok .heartBeat ∧
      ∃ c, (PyVal.list [.num 0, .str "hb"]).index 0 = .ok c ∧ c.pyEqNum 0 = true) ∨
      classify (.list [.num 0, .str "hb"]) = .ok .publicFundingTicker) ∧
    dispatch 0 c7State (.list [.num 5, .str "hb"]) = .ok (c7State, []) ∧
    (c7State = c7State ∧ ([] : List Cmd) = []) := by
  have h1 : dispatch 0 c7State (.list [.num 0, .str "hb"]) =
      .ok (c7State, [Cmd.submit 50 (.num 3) (.num 30)]) := rfl
  have h2 : dispatch 0 c7State (.list [.num 5, .str "hb"]) = .ok (c7State, []) := rfl
  refine ⟨h1, (commands_only_on_trigger_events 0 c7State _ _ _ h1).1 (by simp), h2, ?_⟩
  exact (commands_only_on_trigger_events 0 c7State _ _ _ h2).2 (.num 5) rfl rfl rfl

/-- C10 (counterexample): with a wrong argument count the usage error and
exit do occur, but only after the connection attempt, which comes first
in the startup trace — not before it as claimed. -/
theorem usage_error_after_connect_cex :
    usageErrorTriggered ["funding_bot.py"] = true ∧
    startupTrace ["funding_bot.py"] = [.connectAttempt, .usageErrorExit] ∧
    List.indexOf StartupAction.connectAttempt (startupTrace ["funding_bot.py"]) <
      List.indexOf StartupAction.usageErrorExit (startupTrace ["funding_bot.py"]) := by
  refine ⟨rfl, rfl, ?_⟩
  decide

/-- C10 (amended): a wrong argument count is reported as a usage error
and the process exits, but only when the first Connected event of an
established session is handled — after the connection attempt. -/
theorem usage_error_after_connect (argv : List String) (h : argv.length ≠ 2) :
    startupTrace argv = [.connectAttempt, .usageErrorExit] := by
  simp [startupTrace, usageErrorTriggered, h]

theorem usage_error_after_connect_witness :
    (["funding_robot.py", "a.json", "extra"] : List String).length ≠ 2 ∧
    startupTrace ["funding_robot.py", "a.json", "extra"] =
      [.connectAttempt, .usageErrorExit] :=
  ⟨by decide, usage_error_after_connect ["funding_robot.py", "a.json", "extra"] (by decide)⟩
